import Mathlib

/-!
Shallow embedding of the BlockyHomework blockchain node (src/src/models and
src/src/networking/consensus.py), with theorems checking the natural-language
specification against the code.

Modelling conventions:
* Python floats (amounts, timestamps) are embedded as rationals `ℚ`.
* SHA-256 hashing cannot be computed inside the embedding, so the two hash
  functions are abstract parameters: `HT : TxContent → String` stands for
  `Transaction.calculate_hash` (SHA-256 of the canonical JSON of
  sender/recipient/amount/timestamp) and `HB : BlockContent → String` stands
  for `Block.calculate_hash` (SHA-256 of the canonical JSON of `to_dict()`).
* ECDSA signature verification is likewise an abstract parameter
  `sigV : Transaction → Bool`, standing for the body of the `try:` branch of
  `Transaction.verify_signature`; the code's early return on a missing (falsy)
  signature is modelled explicitly in `Transaction.verify_signature`.
* Stateful methods become functions returning the new state; `time.time()`
  becomes an explicit `now : ℚ` argument.
* The unbounded `while True` loop of `Block.mine_proof_of_work` is modelled
  with explicit fuel; `none` means the search has not succeeded yet.
-/

/-- Canonical content hashed by `Transaction.calculate_hash`:
the JSON object `{sender, recipient, amount, timestamp}`. -/
structure TxContent where
  sender : String
  recipient : String
  amount : ℚ
  timestamp : ℚ
deriving DecidableEq

/-- Result of `Transaction.to_dict`: all six transaction fields. -/
structure TxDict where
  sender : String
  recipient : String
  amount : ℚ
  timestamp : ℚ
  signature : Option String
  hash : String
deriving DecidableEq

/-- A `Transaction` object (src/src/models/transaction.py). -/
structure Transaction where
  sender : String
  recipient : String
  amount : ℚ
  timestamp : ℚ
  signature : Option String
  hash : String
deriving DecidableEq

/-- Content fed to the transaction hash function. -/
def Transaction.content (tx : Transaction) : TxContent :=
  ⟨tx.sender, tx.recipient, tx.amount, tx.timestamp⟩

/-- Models `Transaction.calculate_hash` via the abstract hash `HT`. -/
def Transaction.calculate_hash (HT : TxContent → String) (tx : Transaction) : String :=
  HT tx.content

/-- Models `Transaction.to_dict`. -/
def Transaction.toDict (tx : Transaction) : TxDict :=
  ⟨tx.sender, tx.recipient, tx.amount, tx.timestamp, tx.signature, tx.hash⟩

/-- Models `Transaction.__init__(sender, recipient, amount, signature=None)`:
`timestamp = time.time()` (the `now` argument) and the stored hash is computed
from the content. -/
def Transaction.init (HT : TxContent → String) (sender recipient : String) (amount : ℚ)
    (now : ℚ) (signature : Option String) : Transaction :=
  { sender := sender, recipient := recipient, amount := amount, timestamp := now,
    signature := signature, hash := HT ⟨sender, recipient, amount, now⟩ }

/-- Models `Transaction.verify_signature`: returns `False` when the signature is
falsy (`None` or the empty string), otherwise runs ECDSA verification (the
abstract `sigV`). -/
def Transaction.verify_signature (sigV : Transaction → Bool) (tx : Transaction) : Bool :=
  match tx.signature with
  | none => false
  | some s => if s = "" then false else sigV tx

/-- Models `Transaction.is_valid`: positive amount, non-empty distinct
addresses, and a verifying signature. -/
def Transaction.is_valid (sigV : Transaction → Bool) (tx : Transaction) : Bool :=
  if tx.amount ≤ 0 then false
  else if tx.sender = "" || tx.recipient = "" then false
  else if tx.sender = tx.recipient then false
  else tx.verify_signature sigV

/-- Canonical content hashed by `Block.calculate_hash`: exactly the fields of
`Block.to_dict()` (note: the stored `hash` is not part of it). -/
structure BlockContent where
  index : ℤ
  timestamp : ℚ
  transactions : List TxDict
  proof : ℤ
  previous_hash : String
deriving DecidableEq

/-- A `Block` object (src/src/models/block.py). -/
structure Block where
  index : ℤ
  timestamp : ℚ
  transactions : List Transaction
  proof : ℤ
  previous_hash : String
  hash : String
deriving DecidableEq

/-- Content fed to the block hash function (the `to_dict()` serialization). -/
def Block.content (b : Block) : BlockContent :=
  ⟨b.index, b.timestamp, b.transactions.map Transaction.toDict, b.proof, b.previous_hash⟩

/-- Models `Block.calculate_hash` via the abstract hash `HB`. -/
def Block.calculate_hash (HB : BlockContent → String) (b : Block) : String :=
  HB b.content

/-- Models `Block.__init__(index, transactions, proof, previous_hash)`:
`timestamp = time.time()` (the `now` argument) and `hash = calculate_hash()`. -/
def Block.init (HB : BlockContent → String) (index : ℤ) (now : ℚ)
    (transactions : List Transaction) (proof : ℤ) (previous_hash : String) : Block :=
  let b : Block :=
    { index := index, timestamp := now, transactions := transactions,
      proof := proof, previous_hash := previous_hash, hash := "" }
  { b with hash := b.calculate_hash HB }

/-- Models `Block.is_valid`: stored hash equals its recomputation, the proof is
truthy and positive, and every contained transaction is valid. -/
def Block.is_valid (sigV : Transaction → Bool) (HB : BlockContent → String) (b : Block) : Bool :=
  if b.hash ≠ b.calculate_hash HB then false
  else if b.proof = 0 || b.proof ≤ 0 then false
  else b.transactions.all (Transaction.is_valid sigV)

/-- The target string `'0' * difficulty` of the proof-of-work search. -/
def powTarget (difficulty : ℕ) : String :=
  String.mk (List.replicate difficulty '0')

/-- One iteration of the `while True` loop in `Block.mine_proof_of_work`:
increment `proof`, then recompute and store the hash. -/
def powStep (HB : BlockContent → String) (b : Block) : Block :=
  { b with proof := b.proof + 1,
           hash := Block.calculate_hash HB { b with proof := b.proof + 1 } }

/-- Fuelled model of `Block.mine_proof_of_work`: repeatedly increment `proof`
and recompute the hash until the first `difficulty` characters of the hash are
zeros.  The Python loop is unbounded; running out of fuel (`none`) models a
search that has not succeeded yet.  On success the mutated block (with the
winning proof and hash) is returned together with the returned proof. -/
def Block.mine_proof_of_work (HB : BlockContent → String) (difficulty : ℕ) :
    ℕ → Block → Option (ℤ × Block)
  | 0, _ => none
  | fuel + 1, b =>
    if (powStep HB b).hash.take difficulty = powTarget difficulty then
      some ((powStep HB b).proof, powStep HB b)
    else Block.mine_proof_of_work HB difficulty fuel (powStep HB b)

/-- A `Mempool` object (src/src/models/mempool.py). -/
structure Mempool where
  transactions : List Transaction
  max_size : ℕ
deriving DecidableEq

/-- Models `Mempool.__init__`. -/
def Mempool.init : Mempool :=
  { transactions := [], max_size := 1000 }

/-- Models `Mempool.add_transaction`: reject an invalid transaction, a full
pool, or a duplicate hash; otherwise append.  Returns the Python boolean
together with the new pool state. -/
def Mempool.add_transaction (sigV : Transaction → Bool) (mp : Mempool)
    (tx : Transaction) : Bool × Mempool :=
  if ¬ tx.is_valid sigV then (false, mp)
  else if mp.max_size ≤ mp.transactions.length then (false, mp)
  else if (mp.transactions.map Transaction.hash).contains tx.hash then (false, mp)
  else (true, { mp with transactions := mp.transactions ++ [tx] })

/-- Models `Mempool.get_transactions()` with the default `limit=None`. -/
def Mempool.get_transactions (mp : Mempool) : List Transaction :=
  mp.transactions

/-- Models `Mempool.clear_transactions`: keep the transactions whose hash is
not listed. -/
def Mempool.clear_transactions (mp : Mempool) (hashes : List String) : Mempool :=
  { mp with transactions := mp.transactions.filter (fun tx => ¬ hashes.contains tx.hash) }

/-- Models `Mempool.calculate_fee`: `max(0.001, amount * 0.001)`. -/
def Mempool.calculate_fee (tx : Transaction) : ℚ :=
  max (1 / 1000) (tx.amount * (1 / 1000))

/-- Sort key of `Mempool.prioritize_transactions`: the tuple
`(calculate_fee(tx), tx.timestamp)`. -/
def feeKey (tx : Transaction) : ℚ × ℚ :=
  (Mempool.calculate_fee tx, tx.timestamp)

/-- Lexicographic order on sort keys, as Python compares tuples. -/
def keyLe (k1 k2 : ℚ × ℚ) : Prop :=
  k1.1 < k2.1 ∨ (k1.1 = k2.1 ∧ k1.2 ≤ k2.2)

instance keyLe.decidable : DecidableRel keyLe := by
  unfold keyLe
  infer_instance

/-- Comparator realizing Python's `sorted(..., key=feeKey, reverse=True)`:
`a` may precede `b` iff `feeKey b ≤ feeKey a` lexicographically.  Python's
`sorted` is a stable sort, and a stable sort for a total preorder has a unique
result, so the stable `List.insertionSort` with this comparator is the same
function. -/
def feeRel (a b : Transaction) : Prop :=
  keyLe (feeKey b) (feeKey a)

instance feeRel.decidable : DecidableRel feeRel := by
  unfold feeRel
  infer_instance

instance feeRel.total : IsTotal Transaction feeRel := by
  constructor
  intro a b
  unfold feeRel keyLe
  rcases lt_trichotomy (feeKey a).1 (feeKey b).1 with h | h | h
  · exact Or.inr (Or.inl h)
  · rcases le_total (feeKey b).2 (feeKey a).2 with h2 | h2
    · exact Or.inl (Or.inr ⟨h.symm, h2⟩)
    · exact Or.inr (Or.inr ⟨h, h2⟩)
  · exact Or.inl (Or.inl h)

instance feeRel.trans : IsTrans Transaction feeRel := by
  constructor
  intro a b c hab hbc
  unfold feeRel keyLe at *
  rcases hab with h1 | ⟨h1, h1'⟩ <;> rcases hbc with h2 | ⟨h2, h2'⟩
  · exact Or.inl (h2.trans h1)
  · exact Or.inl (lt_of_eq_of_lt h2 h1)
  · exact Or.inl (lt_of_lt_of_eq h2 h1)
  · exact Or.inr ⟨h2.trans h1, h2'.trans h1'⟩

/-- Models `Mempool.prioritize_transactions`: stable sort by fee descending
then timestamp descending. -/
def Mempool.prioritize_transactions (mp : Mempool) : List Transaction :=
  mp.transactions.insertionSort feeRel

/-- Models `Mempool.get_transactions_for_block(max_transactions=100)`. -/
def Mempool.get_transactions_for_block (mp : Mempool) (max_transactions : ℕ) : List Transaction :=
  (mp.prioritize_transactions).take max_transactions

/-- Constant `GENESIS_BLOCK_HASH` from config/constants.py. -/
def GENESIS_BLOCK_HASH : String :=
  String.mk (List.replicate 64 '0')

/-- A `Blockchain` object (src/src/models/blockchain.py). -/
structure Blockchain where
  chain : List Block
  mempool : Mempool
  difficulty : ℕ
  block_reward : ℚ
deriving DecidableEq

/-- Models `Blockchain.create_genesis_block` followed by `__init__`'s field
initialization: one zero-amount unsigned transaction from `"0"` to the
64-zero address, in a block with proof 100 and the sentinel previous hash.
`MINING_DIFFICULTY = 4` and `BLOCK_REWARD = 10.0` come from config/constants.py. -/
def Blockchain.init (HT : TxContent → String) (HB : BlockContent → String)
    (txNow blkNow : ℚ) : Blockchain :=
  let genesis_transaction := Transaction.init HT "0" GENESIS_BLOCK_HASH 0 txNow none
  let genesis_block := Block.init HB 0 blkNow [genesis_transaction] 100 GENESIS_BLOCK_HASH
  { chain := [genesis_block], mempool := Mempool.init, difficulty := 4, block_reward := 10 }

/-- Models `Blockchain.get_latest_block` (`self.chain[-1]`); `none` corresponds
to the `IndexError` on an empty chain, which the constructor makes unreachable. -/
def Blockchain.get_latest_block (bc : Blockchain) : Option Block :=
  bc.chain.getLast?

/-- Sum of the timestamp deltas of adjacent blocks, as accumulated by the
generator expression in `Blockchain.adjust_difficulty`. -/
def timestampDeltas : List Block → ℚ
  | [] => 0
  | [_] => 0
  | a :: b :: rest => (b.timestamp - a.timestamp) + timestampDeltas (b :: rest)

/-- Models `Blockchain.adjust_difficulty`: every 10 blocks, compare the mean
inter-block time of the last ten blocks against the 60-second target. -/
def Blockchain.adjust_difficulty (bc : Blockchain) : Blockchain :=
  if bc.chain.length % 10 = 0 then
    if timestampDeltas (bc.chain.drop (bc.chain.length - 10)) / 9 < 30 then
      { bc with difficulty := bc.difficulty + 1 }
    else if 120 < timestampDeltas (bc.chain.drop (bc.chain.length - 10)) / 9 then
      { bc with difficulty := max 1 (bc.difficulty - 1) }
    else bc
  else bc

/-- The block appended by a successful `mine_block`: `new_block.proof = proof;
new_block.hash = new_block.calculate_hash()` followed by
`transactions.insert(0, reward_transaction)`.  Note the order of operations
copied from the source: the final hash is recomputed BEFORE the reward
transaction is inserted at position 0. -/
def minedWithReward (HT : TxContent → String) (HB : BlockContent → String) (now : ℚ)
    (bc : Blockchain) (miner_address : String) (proof : ℤ) (mined : Block) : Block :=
  { mined with
    proof := proof,
    hash := Block.calculate_hash HB { mined with proof := proof },
    transactions :=
      Transaction.init HT "0" miner_address bc.block_reward now none :: mined.transactions }

/-- The success branch of `mine_block`: append the finished block, drop the
non-reward transaction hashes from the mempool, adjust difficulty. -/
def mineSuccess (HT : TxContent → String) (HB : BlockContent → String) (now : ℚ)
    (bc : Blockchain) (miner_address : String) (proof : ℤ) (mined : Block) :
    Option Block × Blockchain :=
  (some (minedWithReward HT HB now bc miner_address proof mined),
    Blockchain.adjust_difficulty
      { bc with
        chain := bc.chain ++ [minedWithReward HT HB now bc miner_address proof mined],
        mempool := bc.mempool.clear_transactions
          (((minedWithReward HT HB now bc miner_address proof mined).transactions.drop 1).map
            Transaction.hash) })

/-- Models `Blockchain.mine_block`.  Returns the Python result
(`Optional[Block]`) together with the new blockchain state. -/
def Blockchain.mine_block (HT : TxContent → String) (HB : BlockContent → String)
    (fuel : ℕ) (now : ℚ) (bc : Blockchain) (miner_address : String) :
    Option Block × Blockchain :=
  if bc.mempool.get_transactions = [] then (none, bc)
  else
    match bc.get_latest_block with
    | none => (none, bc)
    | some latest_block =>
      match (Block.init HB (latest_block.index + 1) now
          (bc.mempool.get_transactions_for_block 100) 0
          latest_block.hash).mine_proof_of_work HB bc.difficulty fuel with
      | none => (none, bc)
      | some (proof, mined) =>
        if proof ≠ 0 then mineSuccess HT HB now bc miner_address proof mined
        else (none, bc)

/-- Pairwise linkage checked by the `for i in range(1, len(...))` loops of
`validate_chain` and `replace_chain`: each block's `previous_hash` must equal
the preceding block's stored `hash`. -/
def chainLinked : List Block → Bool
  | [] => true
  | [_] => true
  | a :: b :: rest => (b.previous_hash = a.hash) && chainLinked (b :: rest)

/-- Per-block checks of the `validate_chain` loop body for one adjacent pair:
linkage, `is_valid`, and the (redundant) stored-hash recomputation check. -/
def validateFrom (sigV : Transaction → Bool) (HB : BlockContent → String) :
    Block → List Block → Bool
  | _, [] => true
  | prev, cur :: rest =>
    (cur.previous_hash = prev.hash) && cur.is_valid sigV HB &&
      (cur.hash = cur.calculate_hash HB) && validateFrom sigV HB cur rest

/-- Models `Blockchain.validate_chain`: the loop starts at index 1, so a chain
of length ≤ 1 is vacuously valid and block 0 is never inspected. -/
def Blockchain.validate_chain (sigV : Transaction → Bool) (HB : BlockContent → String)
    (bc : Blockchain) : Bool :=
  match bc.chain with
  | [] => true
  | b0 :: rest => validateFrom sigV HB b0 rest

/-- Models `Blockchain.get_balance`: scan every transaction of every block,
adding received amounts and subtracting sent amounts. -/
def Blockchain.get_balance (bc : Blockchain) (address : String) : ℚ :=
  bc.chain.foldl
    (fun balance b =>
      b.transactions.foldl
        (fun balance tx =>
          let balance := if tx.recipient = address then balance + tx.amount else balance
          if tx.sender = address then balance - tx.amount else balance)
        balance)
    0

/-- Models `Blockchain.replace_chain`: accept only a strictly longer chain all
of whose blocks are individually valid and correctly linked; on success the
chain is swapped.  Returns the Python boolean and the new state. -/
def Blockchain.replace_chain (sigV : Transaction → Bool) (HB : BlockContent → String)
    (bc : Blockchain) (new_chain : List Block) : Bool × Blockchain :=
  if new_chain.length ≤ bc.chain.length then (false, bc)
  else if ¬ new_chain.all (Block.is_valid sigV HB) then (false, bc)
  else if ¬ chainLinked new_chain then (false, bc)
  else (true, { bc with chain := new_chain })

/-! Consensus layer (src/src/networking/consensus.py).

Peer chain data travels as JSON dictionaries.  `BlockDict` models one
serialized block as consumed by `_validate_chain_data` and
`_reconstruct_blockchain`; both read the `hash` key of peer blocks, so the
model includes it. -/

/-- One serialized block received from a peer. -/
structure BlockDict where
  index : ℤ
  timestamp : ℚ
  transactions : List TxDict
  proof : ℤ
  previous_hash : String
  hash : String
deriving DecidableEq

/-- Models `Transaction.from_dict`: all keys present in a peer transaction
dictionary, the stored hash taken from the dictionary. -/
def Transaction.from_dict (d : TxDict) : Transaction :=
  { sender := d.sender, recipient := d.recipient, amount := d.amount,
    timestamp := d.timestamp, signature := d.signature, hash := d.hash }

/-- Per-peer information assembled by `_collect_peer_chains`. -/
structure PeerInfo where
  node_url : String
  chain_length : ℕ
  latest_block_hash : String
  is_valid : Bool
  chain : List BlockDict
deriving DecidableEq

/-- Result of `_analyze_consensus` (the `action` field of the returned
dictionary, with its payload). -/
inductive ConsensusAction where
  | noAction (reason : String)
  | replaceChain (reason : String) (new_chain : List BlockDict)
  | resolveFork (chains : List ((ℕ × String) × List PeerInfo))
deriving DecidableEq

/-- Insert one valid peer into the `(chain_length, latest_block_hash)` buckets,
preserving Python dict insertion order. -/
def addToGroups (gs : List ((ℕ × String) × List PeerInfo)) (p : PeerInfo) :
    List ((ℕ × String) × List PeerInfo) :=
  let key := (p.chain_length, p.latest_block_hash)
  if gs.any (fun g => g.1 = key) then
    gs.map (fun g => if g.1 = key then (g.1, g.2 ++ [p]) else g)
  else gs ++ [(key, [p])]

/-- The `chain_groups` dictionary of `_analyze_consensus`: valid peers bucketed
by `(chain_length, latest_block_hash)` in insertion order. -/
def chainGroups (peer_chains : List PeerInfo) : List ((ℕ × String) × List PeerInfo) :=
  peer_chains.foldl (fun gs p => if p.is_valid then addToGroups gs p else gs) []

/-- Lookup in the bucket dictionary (`local_key in chain_groups` /
`chain_groups[local_key]`). -/
def groupLookup (gs : List ((ℕ × String) × List PeerInfo)) (key : ℕ × String) :
    Option (List PeerInfo) :=
  (gs.find? (fun g => g.1 = key)).map (fun g => g.2)

/-- The `longest_length` of `_analyze_consensus`: greatest chain length among
bucket keys (Python's `max(...)[0]`; the code only reaches it on a non-empty
dictionary). -/
def maxGroupLen (gs : List ((ℕ × String) × List PeerInfo)) : ℕ :=
  (gs.map (fun g => g.1.1)).foldl max 0

/-- The `longest_chains` list: buckets whose key length equals the maximum. -/
def longestChains (gs : List ((ℕ × String) × List PeerInfo)) (L : ℕ) :
    List ((ℕ × String) × List PeerInfo) :=
  gs.filter (fun g => g.1.1 = L)

/-- Python's `max(longest_chains, key=lambda x: len(x[1]))`: the first bucket
with maximal peer support. -/
def bestSupport : List ((ℕ × String) × List PeerInfo) →
    Option ((ℕ × String) × List PeerInfo)
  | [] => none
  | g :: rest =>
    some (rest.foldl (fun best g2 => if best.2.length < g2.2.length then g2 else best) g)

/-- The chain payload `chain_group[0]['chain']` of a bucket. -/
def bucketChain (g : (ℕ × String) × List PeerInfo) : List BlockDict :=
  ((g.2.head?).map (fun p => p.chain)).getD []

/-- Models `ConsensusManager._analyze_consensus` over the peer reports, with
the local chain summarized by its length and latest hash and the manager's
`consensus_threshold` (default 0.51) passed explicitly. -/
def analyze_consensus (threshold : ℚ) (local_length : ℕ) (local_hash : String)
    (peer_chains : List PeerInfo) : ConsensusAction :=
  if peer_chains = [] then .noAction "no_peers"
  else if chainGroups peer_chains = [] then .noAction "no_valid_peers"
  else if local_length < maxGroupLen (chainGroups peer_chains) then
    if (longestChains (chainGroups peer_chains)
        (maxGroupLen (chainGroups peer_chains))).length = 1 then
      match (longestChains (chainGroups peer_chains)
          (maxGroupLen (chainGroups peer_chains))).head? with
      | some g => .replaceChain "longer_chain_consensus" (bucketChain g)
      | none => .noAction "unreachable"
    else
      .resolveFork (longestChains (chainGroups peer_chains)
        (maxGroupLen (chainGroups peer_chains)))
  else if maxGroupLen (chainGroups peer_chains) = local_length then
    match groupLookup (chainGroups peer_chains) (local_length, local_hash) with
    | some our_group =>
      if threshold ≤ (our_group.length : ℚ) / (peer_chains.length : ℚ) then
        .noAction "local_chain_has_consensus"
      else if (longestChains (chainGroups peer_chains)
          (maxGroupLen (chainGroups peer_chains))).length = 1 then
        match bestSupport (longestChains (chainGroups peer_chains)
            (maxGroupLen (chainGroups peer_chains))) with
        | some g => .replaceChain "peer_consensus_override" (bucketChain g)
        | none => .noAction "unreachable"
      else .noAction "no_consensus_needed"
    | none =>
      match bestSupport (longestChains (chainGroups peer_chains)
          (maxGroupLen (chainGroups peer_chains))) with
      | some g => .replaceChain "local_chain_diverged" (bucketChain g)
      | none => .noAction "unreachable"
  else .noAction "local_chain_longer"

/-- Loop body of `_validate_chain_data`: sequential indices and previous-hash
linkage against the predecessor dictionary. -/
def chainDataOk : ℤ → BlockDict → List BlockDict → Bool
  | _, _, [] => true
  | i, prev, bd :: rest =>
    (bd.index = i) && (bd.previous_hash = prev.hash) && chainDataOk (i + 1) bd rest

/-- Models `ConsensusManager._validate_chain_data`: non-empty data whose first
block has index 0, with sequential indices and hash linkage throughout. -/
def validate_chain_data (chain_data : List BlockDict) : Bool :=
  match chain_data with
  | [] => false
  | b0 :: rest => (b0.index = 0) && chainDataOk 1 b0 rest

/-- Keyword arguments of the `Block(...)` call in `_reconstruct_blockchain`
(consensus.py lines 412-418).  `timestamp` and `nonce` are passed there;
`proof` is not. -/
structure BlockCtorCall where
  index : Option ℤ
  transactions : Option (List Transaction)
  proof : Option ℤ
  previous_hash : Option String
  timestamp : Option ℚ
  nonce : Option ℤ
deriving DecidableEq

/-- Python keyword-call semantics of `Block.__init__(self, index, transactions,
proof, previous_hash)`: supplying `timestamp` or `nonce` — parameters that do
not exist — raises `TypeError` (modelled as `none`), as does omitting one of
the four real parameters. -/
def blockInitKw (HB : BlockContent → String) (now : ℚ) (call : BlockCtorCall) :
    Option Block :=
  match call.timestamp, call.nonce with
  | none, none =>
    match call.index, call.transactions, call.proof, call.previous_hash with
    | some i, some txs, some p, some ph => some (Block.init HB i now txs p ph)
    | _, _, _, _ => none
  | _, _ => none

/-- The `Block(index=..., timestamp=..., transactions=..., previous_hash=...,
nonce=...)` call of `_reconstruct_blockchain` applied to one peer block
dictionary, followed by the `block.hash = block_data.get('hash')` assignment. -/
def reconstructBlock (HB : BlockContent → String) (now : ℚ) (bd : BlockDict) :
    Option Block :=
  (blockInitKw HB now
      { index := some bd.index,
        transactions := some (bd.transactions.map Transaction.from_dict),
        proof := none,
        previous_hash := some bd.previous_hash,
        timestamp := some bd.timestamp,
        nonce := some 0 }).map
    (fun b => { b with hash := bd.hash })

/-- The reconstruction loop of `_reconstruct_blockchain`: the first `TypeError`
aborts the whole `try:` block. -/
def reconstructChain (HB : BlockContent → String) (now : ℚ) :
    List BlockDict → Option (List Block)
  | [] => some []
  | bd :: rest =>
    match reconstructBlock HB now bd with
    | none => none
    | some b => (reconstructChain HB now rest).map (fun bs => b :: bs)

/-- Models `ConsensusManager._reconstruct_blockchain`: a fresh `Blockchain()`
whose chain is cleared and refilled from the peer data; any exception yields
`None`. -/
def reconstruct_blockchain (HT : TxContent → String) (HB : BlockContent → String)
    (now : ℚ) (chain_data : List BlockDict) : Option Blockchain :=
  (reconstructChain HB now chain_data).map
    (fun bs => { Blockchain.init HT HB now now with chain := bs })

/-- Models `ConsensusManager._replace_local_chain`: validate the peer data,
reconstruct a blockchain from it, re-validate it, then call
`Blockchain.replace_chain` (whose boolean result the source ignores). -/
def replace_local_chain (sigV : Transaction → Bool) (HT : TxContent → String)
    (HB : BlockContent → String) (now : ℚ) (bc : Blockchain)
    (new_chain_data : List BlockDict) : Bool × Blockchain :=
  if ¬ validate_chain_data new_chain_data then (false, bc)
  else
    match reconstruct_blockchain HT HB now new_chain_data with
    | none => (false, bc)
    | some new_blockchain =>
      if ¬ new_blockchain.validate_chain sigV HB then (false, bc)
      else
        let r := bc.replace_chain sigV HB new_blockchain.chain
        (true, r.2)

/-! Concrete test fixtures: an explicit transaction hash, a block hash whose
value depends only on the number of transactions in the block (so that the
proof-of-work target `"0000"` is met exactly when the block holds at most one
transaction), a signature verifier that accepts everything, and a fresh node
with one pending signed transaction. -/

/-- Concrete transaction hash oracle for fixtures. -/
def testHT : TxContent → String :=
  fun c => c.sender ++ "|" ++ c.recipient

/-- Concrete block hash oracle for fixtures: a block with at most one
transaction hashes to the all-zero target, any larger block does not. -/
def testHB : BlockContent → String :=
  fun c => if c.transactions.length ≤ 1 then "0000" else "1111"

/-- Signature verifier accepting every present signature. -/
def testSigV : Transaction → Bool :=
  fun _ => true

/-- Fallback block for `Option.getD` on mining results. -/
def blockDefault : Block :=
  ⟨0, 0, [], 0, "", ""⟩

/-- A valid signed pending transaction. -/
def txA : Transaction :=
  Transaction.init testHT "alice" "bob" 5 1 (some "sig")

/-- Fresh node (genesis only, empty mempool). -/
def bcFresh : Blockchain :=
  Blockchain.init testHT testHB 0 0

/-- Fresh node with `txA` submitted to the mempool. -/
def bc1 : Blockchain :=
  { bcFresh with mempool := (Mempool.add_transaction testSigV bcFresh.mempool txA).2 }

/-- The concrete mining run used for evaluating `mine_block` at a failing
input: one pending transaction, plenty of fuel. -/
def mineRun : Option Block × Blockchain :=
  Blockchain.mine_block testHT testHB 5 2 bc1 "miner"

/-- The block appended by the concrete mining run. -/
def mineBlockResult : Block :=
  mineRun.1.getD blockDefault

/-- The node state after the concrete mining run. -/
def mineStateResult : Blockchain :=
  mineRun.2

/-! Helper lemmas shared between claims. -/

/-- Unfolding of `Block.is_valid` into its three conjuncts. -/
theorem block_is_valid_iff (sigV : Transaction → Bool) (HB : BlockContent → String)
    (b : Block) :
    b.is_valid sigV HB = true ↔
      (b.hash = b.calculate_hash HB ∧ 0 < b.proof ∧
        ∀ tx ∈ b.transactions, tx.is_valid sigV = true) := by
  unfold Block.is_valid
  by_cases h1 : b.hash = b.calculate_hash HB
  · by_cases h2 : b.proof ≤ 0
    · have h2a : ¬ 0 < b.proof := by omega
      simp [h1, h2, h2a]
    · have h2a : ¬ b.proof = 0 := by omega
      have h2b : 0 < b.proof := by omega
      simp [h1, h2, h2a, h2b, List.all_eq_true]
  · simp [h1]

/-- The linkage loop agrees with adjacent-pair chaining. -/
theorem chainLinked_iff (l : List Block) :
    chainLinked l = true ↔ List.Chain' (fun a b => b.previous_hash = a.hash) l := by
  induction l with
  | nil => simp [chainLinked]
  | cons a t ih =>
    cases t with
    | nil => simp [chainLinked]
    | cons b t2 =>
      simp only [chainLinked, Bool.and_eq_true, List.chain'_cons, decide_eq_true_eq] at *
      tauto

/-- The `validate_chain` loop agrees with adjacent-pair chaining of its
per-pair condition. -/
theorem validateFrom_iff (sigV : Transaction → Bool) (HB : BlockContent → String)
    (b0 : Block) (rest : List Block) :
    validateFrom sigV HB b0 rest = true ↔
      List.Chain'
        (fun prev cur =>
          cur.previous_hash = prev.hash ∧ cur.is_valid sigV HB = true ∧
            cur.hash = cur.calculate_hash HB)
        (b0 :: rest) := by
  induction rest generalizing b0 with
  | nil => simp [validateFrom]
  | cons c t ih =>
    simp only [validateFrom, Bool.and_eq_true, List.chain'_cons, decide_eq_true_eq]
    rw [ih c]
    tauto

/-- C10 (and C4's counterexample) rest on the genesis content: unfold it once. -/
theorem genesis_chain (HT : TxContent → String) (HB : BlockContent → String)
    (txNow blkNow : ℚ) :
    (Blockchain.init HT HB txNow blkNow).chain =
      [Block.init HB 0 blkNow [Transaction.init HT "0" GENESIS_BLOCK_HASH 0 txNow none]
        100 GENESIS_BLOCK_HASH] := rfl

/-- C10: a freshly constructed blockchain passes `validate_chain` although its
genesis block fails `Block.is_valid` — the genesis transaction has amount 0 and
no signature, so it is individually invalid, but the validation loop starts at
index 1 and never inspects block 0. -/
theorem C10_fresh_chain_valid_despite_invalid_genesis (sigV : Transaction → Bool)
    (HT : TxContent → String) (HB : BlockContent → String) (txNow blkNow : ℚ) :
    (Blockchain.init HT HB txNow blkNow).validate_chain sigV HB = true ∧
    ((Blockchain.init HT HB txNow blkNow).chain.map (fun b => b.is_valid sigV HB)) =
      [false] ∧
    ((Blockchain.init HT HB txNow blkNow).chain.map
        (fun b => b.transactions.map (fun tx => (tx.is_valid sigV, tx.amount, tx.signature)))) =
      [[(false, 0, none)]] := by
  refine ⟨rfl, ?_, ?_⟩ <;>
    simp [genesis_chain, Block.is_valid, Block.init, Block.calculate_hash,
      Transaction.init, Transaction.is_valid, Transaction.verify_signature]

/-- C4 counterexample: the fresh chain (whose genesis transaction is invalid)
passes `validate_chain`, refuting the claim's "every transaction contained in
every block of the chain is individually valid" reading of the right-hand
side of the iff. -/
theorem C4_counterexample_genesis_skipped :
    bcFresh.validate_chain testSigV testHB = true ∧
    bcFresh.chain.all (fun b => b.transactions.all (Transaction.is_valid testSigV)) = false := by
  decide

/-- C4 amended: `validate_chain` holds iff each ADJACENT pair (so each block of
index ≥ 1, never block 0) satisfies linkage, stored-hash recomputation,
positive proof, and transaction validity. -/
theorem C4_validate_chain_characterization (sigV : Transaction → Bool)
    (HB : BlockContent → String) (bc : Blockchain) :
    bc.validate_chain sigV HB = true ↔
      List.Chain'
        (fun prev cur =>
          cur.previous_hash = prev.hash ∧ cur.hash = cur.calculate_hash HB ∧
            0 < cur.proof ∧ ∀ tx ∈ cur.transactions, tx.is_valid sigV = true)
        bc.chain := by
  unfold Blockchain.validate_chain
  cases hc : bc.chain with
  | nil => simp
  | cons b0 rest =>
    rw [validateFrom_iff]
    constructor
    · intro h'
      refine h'.imp (fun a b hab => ?_)
      have hb := block_is_valid_iff sigV HB b
      tauto
    · intro h'
      refine h'.imp (fun a b hab => ?_)
      have hb := block_is_valid_iff sigV HB b
      tauto

/-- Unfolding of `Transaction.is_valid` into its conjuncts. -/
theorem transaction_is_valid_iff (sigV : Transaction → Bool) (tx : Transaction) :
    tx.is_valid sigV = true ↔
      (¬ tx.amount ≤ 0 ∧ tx.sender ≠ "" ∧ tx.recipient ≠ "" ∧
        tx.sender ≠ tx.recipient ∧ tx.verify_signature sigV = true) := by
  unfold Transaction.is_valid
  split_ifs with h1 h2 h3 <;> simp_all
  all_goals tauto

/-- A transaction whose recipient is the empty string but whose signature
verifies: every rejection condition listed by the claim is false for it. -/
def txEmptyRecipient : Transaction :=
  Transaction.init testHT "a1b2c3d4" "" 5 1 (some "sig")

/-- C6 counterexample: `txEmptyRecipient` satisfies none of the claim's
rejection conditions (positive amount, distinct sender/recipient, verifying
signature, no duplicate, pool not full), yet `add_transaction` rejects it and
leaves the mempool unchanged, because the code also rejects an empty
sender/recipient. -/
theorem C6_counterexample_empty_recipient :
    Mempool.add_transaction testSigV Mempool.init txEmptyRecipient = (false, Mempool.init) ∧
    0 < txEmptyRecipient.amount ∧
    txEmptyRecipient.sender ≠ txEmptyRecipient.recipient ∧
    txEmptyRecipient.verify_signature testSigV = true ∧
    (Mempool.init.transactions.map Transaction.hash).contains txEmptyRecipient.hash = false ∧
    Mempool.init.transactions.length < Mempool.init.max_size := by
  decide

/-- C6 amended: submission is rejected exactly when the amount is non-positive,
the sender or recipient is empty, sender equals recipient, the signature does
not verify, the hash is already pending, or the pool is full; otherwise the
transaction is appended, and nothing else changes. -/
theorem C6_add_transaction_characterization (sigV : Transaction → Bool)
    (mp : Mempool) (tx : Transaction) :
    ((mp.add_transaction sigV tx).1 = true ↔
      ¬ (tx.amount ≤ 0 ∨ tx.sender = "" ∨ tx.recipient = "" ∨
          tx.sender = tx.recipient ∨ tx.verify_signature sigV = false ∨
          (mp.transactions.map Transaction.hash).contains tx.hash = true ∨
          mp.max_size ≤ mp.transactions.length)) ∧
    (mp.add_transaction sigV tx).2 =
      (if (mp.add_transaction sigV tx).1 then
        { mp with transactions := mp.transactions ++ [tx] }
      else mp) := by
  have hv := transaction_is_valid_iff sigV tx
  constructor
  · simp only [Mempool.add_transaction]
    split_ifs with h1 h2 h3 <;> simp_all [Bool.not_eq_true]
  · simp only [Mempool.add_transaction]
    split_ifs <;> simp_all

/-- C3: `replace_chain` succeeds exactly on a strictly longer, blockwise valid,
correctly linked candidate; the resulting state swaps in the candidate on
success and is untouched on failure. -/
theorem C3_replace_chain_characterization (sigV : Transaction → Bool)
    (HB : BlockContent → String) (bc : Blockchain) (new_chain : List Block) :
    ((bc.replace_chain sigV HB new_chain).1 = true ↔
      (bc.chain.length < new_chain.length ∧
        (∀ b ∈ new_chain, b.is_valid sigV HB = true) ∧
        List.Chain' (fun a b => b.previous_hash = a.hash) new_chain)) ∧
    (bc.replace_chain sigV HB new_chain).2 =
      (if (bc.replace_chain sigV HB new_chain).1 then { bc with chain := new_chain }
       else bc) := by
  constructor
  · simp only [Blockchain.replace_chain]
    split_ifs with h1 h2 h3 <;> simp_all [List.all_eq_true, chainLinked_iff]
  · simp only [Blockchain.replace_chain]
    split_ifs <;> simp_all

/-- C2: consensus-driven chain adoption can never happen.  For every non-empty
peer chain data, `_reconstruct_blockchain` returns `None` (the `Block`
constructor is called with `timestamp` and `nonce` keyword arguments it does
not accept, raising `TypeError`), so `_replace_local_chain` returns `False`
and leaves the local chain unchanged. -/
theorem C2_consensus_never_replaces (sigV : Transaction → Bool)
    (HT : TxContent → String) (HB : BlockContent → String) (now : ℚ)
    (bc : Blockchain) (chain_data : List BlockDict) (h : chain_data ≠ []) :
    replace_local_chain sigV HT HB now bc chain_data = (false, bc) ∧
    reconstruct_blockchain HT HB now chain_data = none := by
  obtain ⟨bd, rest, rfl⟩ : ∃ bd rest, chain_data = bd :: rest := by
    cases chain_data with
    | nil => exact absurd rfl h
    | cons bd rest => exact ⟨bd, rest, rfl⟩
  have hrec : reconstruct_blockchain HT HB now (bd :: rest) = none := by
    simp [reconstruct_blockchain, reconstructChain, reconstructBlock, blockInitKw]
  refine ⟨?_, hrec⟩
  unfold replace_local_chain
  split_ifs with h1 <;> rfl

/-- Concrete one-block peer payload for the C2 witness. -/
def cdWitness : List BlockDict :=
  [⟨0, 0, [], 100, GENESIS_BLOCK_HASH, "h0"⟩]

/-- C2 witness: the theorem applied to a concrete non-empty peer payload. -/
theorem C2_consensus_never_replaces_witness :
    replace_local_chain testSigV testHT testHB 0 bcFresh cdWitness = (false, bcFresh) ∧
    reconstruct_blockchain testHT testHB 0 cdWitness = none :=
  C2_consensus_never_replaces testSigV testHT testHB 0 bcFresh cdWitness (by decide)

/-- C1 evaluation at the failing input: mining with one pending transaction
succeeds and does prepend the reward transaction `("0", miner, 10)`, but the
stored hash of the appended block was computed before the insertion, so it
does not cover the reward transaction and the block fails `Block.is_valid`. -/
theorem C1_mined_block_hash_not_covering_reward :
    mineRun.1 = some mineBlockResult ∧
    mineBlockResult.transactions.map (fun tx => (tx.sender, tx.recipient, tx.amount)) =
      [("0", "miner", 10), ("alice", "bob", 5)] ∧
    mineBlockResult.hash ≠ mineBlockResult.calculate_hash testHB ∧
    mineBlockResult.is_valid testSigV testHB = false := by
  decide

/-- The proof-of-work loop only mutates `proof` and `hash`: the transaction
list (like index, timestamp and previous hash) is untouched. -/
theorem mine_proof_of_work_transactions (HB : BlockContent → String) (difficulty : ℕ) :
    ∀ (fuel : ℕ) (b b' : Block) (p : ℤ),
      Block.mine_proof_of_work HB difficulty fuel b = some (p, b') →
      b'.transactions = b.transactions := by
  intro fuel
  induction fuel with
  | zero => intro b b' p h; exact absurd h (by simp [Block.mine_proof_of_work])
  | succ n ih =>
    intro b b' p h
    unfold Block.mine_proof_of_work at h
    split at h
    · simp only [Option.some.injEq, Prod.mk.injEq] at h
      rw [← h.2]
      rfl
    · exact (ih _ _ _ h).trans rfl

/-- Difficulty adjustment never touches the mempool. -/
theorem adjust_difficulty_mempool (bc : Blockchain) :
    (bc.adjust_difficulty).mempool = bc.mempool := by
  unfold Blockchain.adjust_difficulty
  split_ifs <;> rfl

/-- C7: a successful `mine_block` with N ≤ 100 pending transactions produces a
block of exactly N + 1 transactions (the N pending ones plus the reward) and
empties the mempool, i.e. the mempool shrinks by exactly N. -/
theorem C7_mine_block_transaction_counts (HT : TxContent → String)
    (HB : BlockContent → String) (fuel : ℕ) (now : ℚ) (bc : Blockchain)
    (miner_address : String) (b : Block) (bc' : Blockchain) (N : ℕ)
    (hN : N = bc.mempool.transactions.length) (h1 : 1 ≤ N) (h100 : N ≤ 100)
    (hrun : Blockchain.mine_block HT HB fuel now bc miner_address = (some b, bc')) :
    b.transactions.length = N + 1 ∧
    bc'.mempool.transactions.length + N = bc.mempool.transactions.length := by
  have hsel : (bc.mempool.get_transactions_for_block 100) =
      bc.mempool.prioritize_transactions := by
    unfold Mempool.get_transactions_for_block
    apply List.take_of_length_le
    unfold Mempool.prioritize_transactions
    rw [List.length_insertionSort, ← hN]
    exact h100
  have hselN : (bc.mempool.get_transactions_for_block 100).length = N := by
    rw [hsel]
    unfold Mempool.prioritize_transactions
    rw [List.length_insertionSort, hN]
  unfold Blockchain.mine_block at hrun
  split at hrun
  · simp at hrun
  · split at hrun
    · simp at hrun
    · rename_i latest hlast
      split at hrun
      · simp at hrun
      · rename_i p m hpow
        split at hrun
        · unfold mineSuccess at hrun
          simp only [Prod.mk.injEq, Option.some.injEq] at hrun
          obtain ⟨hb, hbc⟩ := hrun
          have htxs : m.transactions = bc.mempool.get_transactions_for_block 100 :=
            mine_proof_of_work_transactions HB bc.difficulty fuel _ m p hpow
          have hrw : (minedWithReward HT HB now bc miner_address p m).transactions =
              Transaction.init HT "0" miner_address bc.block_reward now none ::
                m.transactions := rfl
          constructor
          · rw [← hb, hrw]
            simp only [List.length_cons]
            rw [htxs, hselN]
          · rw [← hbc, adjust_difficulty_mempool]
            have hclear :
                (bc.mempool.clear_transactions
                  ((((minedWithReward HT HB now bc miner_address p m).transactions.drop 1)).map
                    Transaction.hash)).transactions = [] := by
              rw [hrw]
              simp only [List.drop_one, List.tail_cons]
              unfold Mempool.clear_transactions
              simp only [List.filter_eq_nil_iff]
              intro tx htx
              simp only [Bool.not_eq_true, decide_eq_true_eq, Decidable.not_not]
              have htx' : tx ∈ m.transactions := by
                rw [htxs, hsel]
                exact (List.mem_insertionSort feeRel).mpr htx
              have hmem : tx.hash ∈ (m.transactions).map Transaction.hash :=
                List.mem_map_of_mem Transaction.hash htx'
              simp only [Bool.not_eq_false]
              exact List.elem_iff.mpr hmem
            show (bc.mempool.clear_transactions _).transactions.length + N =
              bc.mempool.transactions.length
            rw [hclear]
            simp [hN]
        · simp at hrun

/-- C7 witness: the concrete mining run (one pending transaction) yields a
block with two transactions and empties the mempool. -/
theorem C7_mine_block_transaction_counts_witness :
    mineBlockResult.transactions.length = 1 + 1 ∧
    mineStateResult.mempool.transactions.length + 1 = bc1.mempool.transactions.length :=
  C7_mine_block_transaction_counts testHT testHB 5 2 bc1 "miner" mineBlockResult
    mineStateResult 1 (by decide) (by decide) (by decide) (by decide)

/-- C8: `prioritize_transactions` is a permutation of the pending transactions,
sorted by the comparator "fee descending then timestamp descending", stable
(for every key value the transactions carrying that key appear in their
original insertion order), and `get_transactions_for_block(limit)` is exactly
its first `limit` entries. -/
theorem C8_prioritize_stable_sort (mp : Mempool) (limit : ℕ) :
    (mp.prioritize_transactions).Perm mp.transactions ∧
    (mp.prioritize_transactions).Pairwise feeRel ∧
    (∀ k : ℚ × ℚ,
      (mp.prioritize_transactions).filter (fun tx => feeKey tx = k) =
        mp.transactions.filter (fun tx => feeKey tx = k)) ∧
    mp.get_transactions_for_block limit = (mp.prioritize_transactions).take limit := by
  refine ⟨List.perm_insertionSort feeRel mp.transactions,
    List.sorted_insertionSort feeRel mp.transactions, ?_, rfl⟩
  intro k
  have hpair : (mp.transactions.filter (fun tx => feeKey tx = k)).Pairwise feeRel := by
    apply List.pairwise_of_forall_mem_list
    intro a ha b hb
    have ha' := (List.mem_filter.mp ha).2
    have hb' := (List.mem_filter.mp hb).2
    simp only [decide_eq_true_eq] at ha' hb'
    unfold feeRel keyLe
    rw [ha', hb']
    exact Or.inr ⟨rfl, le_refl _⟩
  have hsub : List.Sublist (mp.transactions.filter (fun tx => feeKey tx = k))
      (mp.transactions.insertionSort feeRel) :=
    List.sublist_insertionSort hpair (List.filter_sublist mp.transactions)
  have hself : (mp.transactions.filter (fun tx => feeKey tx = k)).filter
      (fun tx => feeKey tx = k) = mp.transactions.filter (fun tx => feeKey tx = k) :=
    List.filter_eq_self.mpr (fun a ha => (List.mem_filter.mp ha).2)
  have hsub2 : List.Sublist (mp.transactions.filter (fun tx => feeKey tx = k))
      ((mp.transactions.insertionSort feeRel).filter (fun tx => feeKey tx = k)) := by
    have h' := hsub.filter (fun tx => feeKey tx = k)
    rwa [hself] at h'
  have hperm : ((mp.transactions.insertionSort feeRel).filter (fun tx => feeKey tx = k)).Perm
      (mp.transactions.filter (fun tx => feeKey tx = k)) :=
    (List.perm_insertionSort feeRel mp.transactions).filter (fun tx => feeKey tx = k)
  exact (hsub2.eq_of_length hperm.length_eq.symm).symm

/-- Amounts received by `address` in a transaction list (the additions that
`get_balance` performs). -/
def receivedSum (address : String) (txs : List Transaction) : ℚ :=
  ((txs.filter (fun tx => tx.recipient = address)).map Transaction.amount).sum

/-- Amounts sent by `address` in a transaction list (the subtractions that
`get_balance` performs). -/
def sentSum (address : String) (txs : List Transaction) : ℚ :=
  ((txs.filter (fun tx => tx.sender = address)).map Transaction.amount).sum

/-- The inner fold of `get_balance` over one transaction list. -/
theorem balance_inner_fold (address : String) (txs : List Transaction) (init : ℚ) :
    txs.foldl
      (fun balance tx =>
        let balance := if tx.recipient = address then balance + tx.amount else balance
        if tx.sender = address then balance - tx.amount else balance)
      init = init + receivedSum address txs - sentSum address txs := by
  induction txs generalizing init with
  | nil => simp [receivedSum, sentSum]
  | cons tx t ih =>
    simp only [List.foldl_cons]
    rw [ih]
    unfold receivedSum sentSum
    by_cases h1 : tx.recipient = address <;> by_cases h2 : tx.sender = address <;>
      simp [h1, h2, List.filter_cons] <;> ring

/-- The outer fold of `get_balance` over the chain. -/
theorem balance_outer_fold (address : String) (chain : List Block) (init : ℚ) :
    chain.foldl
      (fun balance b =>
        b.transactions.foldl
          (fun balance tx =>
            let balance := if tx.recipient = address then balance + tx.amount else balance
            if tx.sender = address then balance - tx.amount else balance)
          balance)
      init =
      init + receivedSum address (chain.map Block.transactions).flatten -
        sentSum address (chain.map Block.transactions).flatten := by
  induction chain generalizing init with
  | nil => simp [receivedSum, sentSum]
  | cons b t ih =>
    simp only [List.foldl_cons, List.map_cons, List.flatten_cons]
    rw [ih, balance_inner_fold]
    unfold receivedSum sentSum
    simp only [List.filter_append, List.map_append, List.sum_append]
    ring

/-- C9: `get_balance` is the sum of received amounts minus the sum of sent
amounts over every transaction of every committed block, and it depends only
on the chain, so repeated calls with no chain mutation in between (whatever
happens to the mempool or difficulty) return the same value. -/
theorem C9_get_balance_received_minus_sent (bc : Blockchain) (address : String) :
    bc.get_balance address =
      receivedSum address (bc.chain.map Block.transactions).flatten -
        sentSum address (bc.chain.map Block.transactions).flatten ∧
    ∀ bc' : Blockchain, bc'.chain = bc.chain →
      bc'.get_balance address = bc.get_balance address := by
  constructor
  · unfold Blockchain.get_balance
    rw [balance_outer_fold]
    ring
  · intro bc' h
    unfold Blockchain.get_balance
    rw [h]

/-- Variant of the fresh node differing only outside the chain. -/
def bcFreshAlt : Blockchain :=
  { bcFresh with difficulty := 9, mempool := bc1.mempool }

/-- C9 witness: the theorem applied to the fresh node, with the stability part
discharged against a state that differs in mempool and difficulty but has the
same chain. -/
theorem C9_get_balance_received_minus_sent_witness :
    bcFresh.get_balance "0" =
      receivedSum "0" (bcFresh.chain.map Block.transactions).flatten -
        sentSum "0" (bcFresh.chain.map Block.transactions).flatten ∧
    bcFreshAlt.get_balance "0" = bcFresh.get_balance "0" :=
  ⟨(C9_get_balance_received_minus_sent bcFresh "0").1,
    (C9_get_balance_received_minus_sent bcFresh "0").2 bcFreshAlt rfl⟩

/-- Peer fixtures for the consensus decision at equal chain length. -/
def peerA : PeerInfo :=
  ⟨"http://a", 2, "A", true, []⟩

def peerA2 : PeerInfo :=
  ⟨"http://a2", 2, "A", true, []⟩

def peerB1 : PeerInfo :=
  ⟨"http://b1", 2, "B", true, []⟩

def peerB2 : PeerInfo :=
  ⟨"http://b2", 2, "B", true, []⟩

def peerC : PeerInfo :=
  ⟨"http://c", 2, "C", true, []⟩

/-- Four valid peers, all at the local length 2: buckets A (1 peer, the local
head), B (2 peers), C (1 peer). -/
def c5peers : List PeerInfo :=
  [peerA, peerB1, peerB2, peerC]

/-- C5 counterexample: all peers report the local length, the local bucket
holds only 1/4 < 0.51 of the responding peers, and a best-supported bucket
(`(2,"B")`, 2 peers) exists among the tied buckets, yet the decision is
`no_action` — not the adoption the claim requires "even when multiple buckets
are tied at that length". -/
theorem C5_counterexample_tied_buckets_no_action :
    analyze_consensus (51 / 100) 2 "A" c5peers =
      ConsensusAction.noAction "no_consensus_needed" ∧
    maxGroupLen (chainGroups c5peers) = 2 ∧
    groupLookup (chainGroups c5peers) (2, "A") = some [peerA] ∧
    ¬ (51 / 100 : ℚ) ≤ ((1 : ℕ) : ℚ) / ((4 : ℕ) : ℚ) ∧
    bestSupport (longestChains (chainGroups c5peers) 2) =
      some ((2, "B"), [peerB1, peerB2]) := by
  refine ⟨?_, by decide, by decide, by norm_num, by decide⟩
  have hne : c5peers ≠ [] := by decide
  have hgs : chainGroups c5peers ≠ [] := by decide
  have hlt : ¬ (2 : ℕ) < maxGroupLen (chainGroups c5peers) := by decide
  have hmax : maxGroupLen (chainGroups c5peers) = 2 := by decide
  have hlook : groupLookup (chainGroups c5peers) (2, "A") = some [peerA] := by decide
  have hone : ¬ (longestChains (chainGroups c5peers)
      (maxGroupLen (chainGroups c5peers))).length = 1 := by decide
  unfold analyze_consensus
  rw [if_neg hne, if_neg hgs, if_neg hlt, if_pos hmax]
  simp only [hlook]
  have hlen1 : ([peerA] : List PeerInfo).length = 1 := rfl
  have hlen4 : c5peers.length = 4 := rfl
  rw [hlen1, hlen4]
  have hthr : ¬ (51 / 100 : ℚ) ≤ ((1 : ℕ) : ℚ) / ((4 : ℕ) : ℚ) := by norm_num
  rw [if_neg hthr, if_neg hone]

/-- C5 amended: in a round whose greatest valid peer length equals the local
length, (a) if the local bucket holds at least the threshold fraction of all
responding peers, no action; otherwise (b) if exactly one bucket exists at the
maximal length, that bucket's chain is adopted, and (c) if several buckets are
tied at the maximal length while the local key is present, NO action is taken;
(d) only when the local key matches no bucket at all is the best-supported
bucket adopted regardless of ties. -/
theorem C5_equal_length_decision (threshold : ℚ) (local_length : ℕ) (local_hash : String)
    (peer_chains : List PeerInfo)
    (hne : peer_chains ≠ [])
    (hgs : chainGroups peer_chains ≠ [])
    (hmax : maxGroupLen (chainGroups peer_chains) = local_length) :
    (∀ our_group,
      groupLookup (chainGroups peer_chains) (local_length, local_hash) = some our_group →
      ((threshold ≤ (our_group.length : ℚ) / (peer_chains.length : ℚ) →
          analyze_consensus threshold local_length local_hash peer_chains =
            ConsensusAction.noAction "local_chain_has_consensus") ∧
        (¬ threshold ≤ (our_group.length : ℚ) / (peer_chains.length : ℚ) →
          (longestChains (chainGroups peer_chains) local_length).length = 1 →
          ∀ g, bestSupport (longestChains (chainGroups peer_chains) local_length) = some g →
            analyze_consensus threshold local_length local_hash peer_chains =
              ConsensusAction.replaceChain "peer_consensus_override" (bucketChain g)) ∧
        (¬ threshold ≤ (our_group.length : ℚ) / (peer_chains.length : ℚ) →
          (longestChains (chainGroups peer_chains) local_length).length ≠ 1 →
          analyze_consensus threshold local_length local_hash peer_chains =
            ConsensusAction.noAction "no_consensus_needed"))) ∧
    (groupLookup (chainGroups peer_chains) (local_length, local_hash) = none →
      ∀ g, bestSupport (longestChains (chainGroups peer_chains) local_length) = some g →
        analyze_consensus threshold local_length local_hash peer_chains =
          ConsensusAction.replaceChain "local_chain_diverged" (bucketChain g)) := by
  have hlt : ¬ local_length < maxGroupLen (chainGroups peer_chains) := by omega
  unfold analyze_consensus
  rw [if_neg hne, if_neg hgs, if_neg hlt, if_pos hmax]
  simp only [hmax]
  constructor
  · intro our_group hlook
    simp only [hlook]
    refine ⟨?_, ?_, ?_⟩
    · intro hthr
      rw [if_pos hthr]
    · intro hthr hone g hbs
      simp only [if_neg hthr, if_pos hone, hbs]
    · intro hthr hone
      rw [if_neg hthr, if_neg hone]
  · intro hlook g hbs
    simp only [hlook, hbs]

/-- Two peers supporting the local head: the local bucket holds 100 percent of
the responders. -/
def c5peersW : List PeerInfo :=
  [peerA, peerA2]

/-- C5 witness: the amended decision theorem applied to a concrete input in
which the local bucket meets the threshold, so no action is taken. -/
theorem C5_equal_length_decision_witness :
    analyze_consensus (51 / 100) 2 "A" c5peersW =
      ConsensusAction.noAction "local_chain_has_consensus" :=
  ((C5_equal_length_decision (51 / 100) 2 "A" c5peersW (by decide) (by decide)
      (by decide)).1 [peerA, peerA2] (by decide)).1 (by norm_num [c5peersW])
